import Mathlib

/-!
Verification of the Aldi storefront scraper (`src/aldi-test.py`).

The program is embedded shallowly: strings are lists of characters
(`Str`), DOM access is abstracted into structures holding the texts that
the Playwright locators would return, the output file is an optional
character list (`none` = the file does not exist), and the CPython
`csv.Sniffer.has_header` heuristic used by `append_to_csv` is ported
faithfully for the unquoted comma-separated samples this program writes.

The file is organized as definitions first, theorems second.
-/

/-- Strings are modelled as lists of characters, so that every operation
reduces well in the kernel. -/
abbrev Str := List Char

/-- Conversion from a Lean string literal to the model's string type. -/
def str (s : String) : Str := s.data

/-- Python `sep in s` for a one-character separator. -/
def hasCh (c : Char) : Str → Bool
  | [] => false
  | d :: r => d = c || hasCh c r

/-- Python `s.split(sep)` for a one-character separator: splitting the
empty string gives `[""]`, and separators at the ends give empty chunks. -/
def pySplitCh (sep : Char) : Str → List Str
  | [] => [[]]
  | c :: rest =>
    let r := pySplitCh sep rest
    if c = sep then [] :: r
    else
      match r with
      | [] => [[c]]
      | h :: t => (c :: h) :: t

/-- Substring containment, as in Python `needle in hay` and the CSS
attribute selector `[href*=needle]`. -/
def containsSub (needle : Str) : Str → Bool
  | [] => decide (needle = [])
  | c :: rest => needle.isPrefixOf (c :: rest) || containsSub needle rest

/-- One product element (`deli_item`), abstracted to the texts the
locators of `extract_item_details` would return: for each of the two
price container selectors (`div.e-2feaft`, `div.e-s71gfs`), the inner
text of the first `span.screen-reader-only` under the first matching
container when such a span exists; and the inner texts of the first
`div.e-147kl2c` (name) and `div.e-an4oxa` (ounces) when present. -/
structure DeliItem where
  priceSpanFeaft : Option Str
  priceSpanSgfs : Option Str
  nameText : Option Str
  ouncesText : Option Str
deriving DecidableEq

/-- The record returned by `extract_item_details` before the category
and date keys are added. -/
structure ItemDetails where
  productName : Str
  price : Str
  ounces : Str
deriving DecidableEq

/-- The `for price_class in ['div.e-2feaft', 'div.e-s71gfs']` loop:
the first selector whose container holds a screen-reader span wins. -/
def firstPriceSpan (item : DeliItem) : Option Str :=
  match item.priceSpanFeaft with
  | some s => some s
  | none => item.priceSpanSgfs

/-- `extract_item_details` from `src/aldi-test.py`: price comes from the
first matching screen-reader span, split on `$` when a `$` is present,
and the record's price field is the f-string `f"${price}"`; name and
ounces default to the sentinel `"Not found"` when their element is
absent. -/
def extract_item_details (item : DeliItem) : ItemDetails :=
  let price : Str :=
    match firstPriceSpan item with
    | some full_price =>
        if hasCh '$' full_price then (pySplitCh '$' full_price).getD 1 []
        else full_price
    | none => str "Not found"
  let product_name := item.nameText.getD (str "Not found")
  let ounces := item.ouncesText.getD (str "Not found")
  { productName := product_name, price := str "$" ++ price, ounces := ounces }

/-- Python `set.add` modelled on a duplicate-free list: a member is
ignored, a new element is appended.  The properties proved below are
independent of iteration order, so a Python set is represented
adequately by its insertion-ordered support list. -/
def setInsert (s : List Str) (x : Str) : List Str :=
  if x ∈ s then s else s ++ [x]

/-- Resolution of an href to an absolute URL, from the body of
`get_subcategory_urls` / `get_department_urls`:
`f"https://shop.aldi.us{href}" if href.startswith("/") else href`. -/
def resolveUrl (href : Str) : Str :=
  if (str "/").isPrefixOf href then str "https://shop.aldi.us" ++ href else href

/-- The href-attribute filter of the locator
`a[href*="/store/aldi/collections"]`. -/
def matchesCollections (href : Str) : Bool :=
  containsSub (str "/store/aldi/collections") href

/-- The sub-category URL test applied to the resolved URL:
`"/collections/n-" in full_url or "/collections/rc-" in full_url`. -/
def matchesPattern (full_url : Str) : Bool :=
  containsSub (str "/collections/n-") full_url ||
    containsSub (str "/collections/rc-") full_url

/-- The body of the collection loop of `get_subcategory_urls`: resolve
the href and add the resolved URL to the set when it matches the
`n-`/`rc-` patterns. -/
def subStep (s : List Str) (h : Str) : List Str :=
  let full_url := resolveUrl h
  if matchesPattern full_url then setInsert s full_url else s

/-- `get_subcategory_urls` from `src/aldi-test.py`, over the hrefs of the
anchors of the department page (`hrefs`): the locator keeps the anchors
whose href contains `/store/aldi/collections`, each is resolved, the
resolved URLs matching the `n-`/`rc-` path patterns are collected into a
set, and when the set is empty the department URL itself is the sole
entry. -/
def get_subcategory_urls (hrefs : List Str) (department_url : Str) : List Str :=
  let candidates := hrefs.filter matchesCollections
  let sub_urls := candidates.foldl subStep []
  if sub_urls = [] then [department_url] else sub_urls

/-- Number of occurrences of a URL in a list. -/
def countOcc (x : Str) : List Str → Nat
  | [] => 0
  | y :: t => (if y = x then 1 else 0) + countOcc x t

/-- The body of the `while True` loop of `scroll_to_load_all_items`,
with explicit fuel: `heights i` is the value of the `i`-th evaluation of
`document.body.scrollHeight`, `last` the previously read height, and the
result is the index of the reading at which the loop breaks (`none` when
the fuel runs out before the heights stabilize). -/
def scroll_aux (heights : Nat → Nat) (last i : Nat) : Nat → Option Nat
  | 0 => none
  | fuel + 1 =>
    let new_height := heights i
    if new_height = last then some i
    else scroll_aux heights new_height (i + 1) fuel

/-- `scroll_to_load_all_items` from `src/aldi-test.py`: read the initial
height (reading 0), then repeatedly scroll, wait, and re-read, stopping
only when a reading repeats the previous one. -/
def scroll_to_load_all_items (heights : Nat → Nat) (fuel : Nat) : Option Nat :=
  scroll_aux heights (heights 0) 1 fuel

/-- Leading and trailing whitespace removal, as `int()` / `float()` /
`complex()` do before parsing (ASCII whitespace; the unicode spaces
Python also strips never occur in this program's data). -/
def trimWs (s : Str) : Str :=
  ((s.dropWhile Char.isWhitespace).reverse.dropWhile Char.isWhitespace).reverse

/-- A non-empty all-digit string. -/
def digitsNonempty (s : Str) : Bool :=
  !s.isEmpty && s.all Char.isDigit

/-- Strip one optional leading sign. -/
def signBody : Str → Str
  | '+' :: r => r
  | '-' :: r => r
  | r => r

/-- Acceptance of Python `int(s)` on the strings this scraper handles
(underscore digit separators are not modelled; no cell of this program
contains them). -/
def isPyIntStr (s : Str) : Bool :=
  digitsNonempty (signBody (trimWs s))

/-- A float mantissa: `digits`, `digits.`, `digits.digits` or `.digits`. -/
def isMantissa (s : Str) : Bool :=
  let ip := s.takeWhile Char.isDigit
  match s.dropWhile Char.isDigit with
  | [] => !ip.isEmpty
  | '.' :: frac => (!ip.isEmpty || !frac.isEmpty) && frac.all Char.isDigit
  | _ => false

/-- A float body after the sign: mantissa with an optional exponent. -/
def isFloatBody (s : Str) : Bool :=
  let mant := s.takeWhile fun c => !(c = 'e' || c = 'E')
  match s.dropWhile fun c => !(c = 'e' || c = 'E') with
  | [] => isMantissa mant
  | _ :: ex => isMantissa mant && digitsNonempty (signBody ex)

/-- Acceptance of Python `float(s)`, including the `inf`/`nan` forms. -/
def isPyFloatStr (s : Str) : Bool :=
  let b := signBody (trimWs s)
  isFloatBody b || (b.map Char.toLower = str "inf") ||
    (b.map Char.toLower = str "infinity") || (b.map Char.toLower = str "nan")

/-- Acceptance of Python `complex(s)` for the pure-imaginary forms; the
real forms it also accepts are classified as int or float by the earlier
branches of `cellTy`, and the mixed `a+bj` form is not modelled (no cell
of this scraper's data ever takes it). -/
def isPyComplexStr (s : Str) : Bool :=
  let t := trimWs s
  match t.getLast? with
  | some 'j' =>
    let b := t.dropLast
    b.isEmpty || b = ['+'] || b = ['-'] || isFloatBody (signBody b)
  | _ => false

/-- The per-cell classification of `csv.Sniffer.has_header`: try `int`,
`float`, `complex` in order, and fall back to the cell's length. -/
inductive CellTy where
  | pyInt
  | pyFloat
  | pyComplex
  | strLen (n : Nat)
deriving DecidableEq

/-- Classify one cell as `has_header` does. -/
def cellTy (s : Str) : CellTy :=
  if isPyIntStr s then .pyInt
  else if isPyFloatStr s then .pyFloat
  else if isPyComplexStr s then .pyComplex
  else .strLen s.length

/-- One column's sniffer state: `none` when the column was removed from
consideration (inconsistent cells), `some none` when no cell has set it
yet (Python's `None`), `some (some t)` when all cells so far agreed on
`t`. -/
def updCol (cell : Str) : Option (Option CellTy) → Option (Option CellTy)
  | none => none
  | some none => some (some (cellTy cell))
  | some (some t) => if cellTy cell = t then some (some t) else none

/-- Process one data row: rows whose column count differs from the
header's are skipped entirely. -/
def updRow (cols : List (Option (Option CellTy))) (row : List Str) :
    List (Option (Option CellTy)) :=
  if row.length = cols.length then List.zipWith updCol row cols else cols

/-- The column states after scanning the data rows; `has_header` checks
at most 21 rows (`checked` is incremented before the break test). -/
def colStates (header : List Str) (rows : List (List Str)) :
    List (Option (Option CellTy)) :=
  (rows.take 21).foldl updRow (header.map fun _ => some none)

/-- Whether `colType(header[col])` succeeds for a numeric column type
(`float()` and `complex()` also accept int strings). -/
def castOk (t : CellTy) (cell : Str) : Bool :=
  match t with
  | .pyInt => isPyIntStr cell
  | .pyFloat => isPyFloatStr cell || isPyIntStr cell
  | .pyComplex => isPyComplexStr cell || isPyFloatStr cell || isPyIntStr cell
  | .strLen _ => false

/-- The vote of one live column: a never-set column (`None`) raises
`TypeError` on the cast and votes for a header; a length column votes
for a header when the header cell's length differs; a numeric column
votes for a header when the header cell does not parse. -/
def colVote (headerCell : Str) : Option CellTy → Int
  | none => 1
  | some (.strLen n) => if headerCell.length = n then -1 else 1
  | some t => if castOk t headerCell then -1 else 1

/-- Sum of the votes over the columns; removed columns contribute 0. -/
def voteSum : List Str → List (Option (Option CellTy)) → Int
  | [], _ => 0
  | _, [] => 0
  | hc :: hs, st :: sts =>
    (match st with
     | none => 0
     | some inner => colVote hc inner) + voteSum hs sts

/-- The rows `csv.reader` yields on the sniffed sample, with the
delimiter fixed to `,` (the Sniffer's delimiter guesser returns `,` on
the comma-consistent samples this program writes): split into lines, a
trailing newline yields no extra row, and each line splits on commas.
The csv module's quoting path is not modelled; every content the
theorems below sniff is quote-free. -/
def readerRows (sample : Str) : List (List Str) :=
  let ls := pySplitCh '\n' sample
  let ls :=
    match ls.getLast? with
    | some [] => ls.dropLast
    | _ => ls
  ls.map (pySplitCh ',')

/-- `csv.Sniffer().has_header(sample)`: take the first row as the
candidate header, scan up to 21 data rows into per-column types, and
declare a header when the vote is positive.  On an empty sample the real
Sniffer raises an uncaught `csv.Error`; this is modelled as `false` and
never exercised by the theorems below. -/
def sniffHasHeader (sample : Str) : Bool :=
  match readerRows sample with
  | [] => false
  | header :: rows => 0 < voteSum header (colStates header rows)

/-- One product record as written to the CSV: the dict with the keys
`Date`, `Category`, `Product Name`, `Price`, `Ounces`. -/
structure Record where
  date : Str
  category : Str
  productName : Str
  price : Str
  ounces : Str
deriving DecidableEq

/-- Whether the csv writer must quote a field. -/
def needsQuote (f : Str) : Bool :=
  f.any fun c => c = ',' || c = '"' || c = '\n' || c = '\r'

/-- Minimal csv field quoting: wrap in double quotes and double the
inner quotes, exactly when the field holds a delimiter, quote or line
break. -/
def csvField (f : Str) : Str :=
  if needsQuote f then
    '"' :: (f.foldr (fun c acc => if c = '"' then '"' :: '"' :: acc else c :: acc) []) ++ ['"']
  else f

/-- Join fields with commas. -/
def joinComma : List Str → Str
  | [] => []
  | [f] => f
  | f :: fs => f ++ ',' :: joinComma fs

/-- The field values of a record in the `DictWriter`'s fixed
`fieldnames` order. -/
def recordFields (r : Record) : List Str :=
  [r.date, r.category, r.productName, r.price, r.ounces]

/-- The line the writer emits for one record. -/
def recordLine (r : Record) : Str := joinComma ((recordFields r).map csvField)

/-- One record's serialization; the writer terminates lines with `\r\n`,
which the text-mode read of the sniff sees as `\n`, so the whole model
works in the translated view. -/
def serializeRecord (r : Record) : Str := recordLine r ++ ['\n']

/-- `writer.writerows(data)`. -/
def serializeRows (data : List Record) : Str := (data.map serializeRecord).flatten

/-- The header cells, in the fixed order of the `DictWriter` call. -/
def headerFields : List Str :=
  [str "Date", str "Category", str "Product Name", str "Price", str "Ounces"]

/-- The header line `writer.writeheader()` emits. -/
def headerLine : Str := joinComma headerFields

/-- `append_to_csv` from `src/aldi-test.py`, over the file state
(`none` = the file does not exist, which raises `FileNotFoundError` at
the sniffing read and is treated as "no header"): an empty batch
returns without touching the file; otherwise the first 1024 characters
of the existing content are sniffed, the file is opened in append mode
(created when missing), the header is written only when none was
sniffed, and the rows follow. -/
def append_to_csv (data : List Record) (file : Option Str) : Option Str :=
  if data = [] then file
  else
    let has_header :=
      match file with
      | none => false
      | some content => sniffHasHeader (content.take 1024)
    some (file.getD [] ++ (if has_header then [] else headerLine ++ ['\n']) ++
      serializeRows data)

/-- The lines of a file content, split on the newline character. -/
def linesOf (content : Str) : List Str := pySplitCh '\n' content

/-- A record none of whose fields needs csv quoting. -/
def plainRecord (r : Record) : Bool :=
  (recordFields r).all fun f => !needsQuote f

/-- A batch of two plain records on which every column of the sniffer's
vote goes against header-likeness: the dates have length 10 against the
4 of `Date`, voting +1, while category, name, price and ounces all match
their header cell's length, each voting -1. -/
def cexBatch : List Record :=
  [⟨str "2026-10-12", str "Beverage", str "Orange Juice", str "$3.99", str "1.5 oz"⟩,
   ⟨str "2026-10-12", str "Beverage", str "Apple Cider!", str "$4.99", str "2.5 oz"⟩]

/-- The storefront as seen through the locators of
`get_department_urls`: the count of the `ul.e-19g896u` navigation list,
the hrefs of the department links `ul.e-19g896u > li > a.e-v0wv1`, and
for each department URL the anchor hrefs of that department's page (the
input `get_subcategory_urls` reads).  The Confirm-dialog click changes
no returned data and is not represented. -/
structure Site where
  navListCount : Nat
  deptHrefs : List Str
  subPageHrefs : Str → List Str

/-- The department loop body: resolve the href and add it to the set of
department URLs. -/
def deptStep (s : List Str) (h : Str) : List Str :=
  setInsert s (resolveUrl h)

/-- `get_department_urls` from `src/aldi-test.py`: when the navigation
list is absent the diagnostic dump is printed and the empty list
returned; otherwise the department URLs are collected into a set and
the union of every department's sub-category URLs is returned. -/
def get_department_urls (site : Site) : List Str :=
  if site.navListCount = 0 then []
  else
    let dept_urls := site.deptHrefs.foldl deptStep []
    dept_urls.foldl
      (fun acc d => (get_subcategory_urls (site.subPageHrefs d) d).foldl setInsert acc) []

/-- The per-URL body of the orchestrator's loop: a successful scrape
(`some deli_data`) extends the accumulator, a raised exception (`none`)
is caught, logged and skipped. -/
def accumStep (scrape : Str → Option (List Record)) (acc : List Record) (u : Str) :
    List Record :=
  match scrape u with
  | some deli_data => acc ++ deli_data
  | none => acc

/-- `run` from `src/aldi-test.py`, over the discovered site, the
per-category scrape outcomes and the initial output-file state: when
discovery yields nothing the process exits before touching the file;
otherwise every URL is visited under the exception guard and the
accumulated records are appended once at the end. -/
def run (site : Site) (scrape : Str → Option (List Record)) (file : Option Str) :
    Option Str :=
  let urls := get_department_urls site
  if urls = [] then file
  else append_to_csv (urls.foldl (accumStep scrape) []) file

/-! Theorems. -/

/-- C2: a product element in which neither price container selector
yields a screen-reader span gets `Price = "$Not found"` (the literal `$`
prepended to the sentinel), while absent name and weight elements get
the plain sentinel `"Not found"`. -/
theorem C2_price_sentinel_has_dollar_prefix (item : DeliItem)
    (hp1 : item.priceSpanFeaft = none) (hp2 : item.priceSpanSgfs = none) :
    (extract_item_details item).price = str "$Not found" ∧
    (item.nameText = none → (extract_item_details item).productName = str "Not found") ∧
    (item.ouncesText = none → (extract_item_details item).ounces = str "Not found") := by
  refine ⟨?_, fun hn => ?_, fun ho => ?_⟩
  · simp [extract_item_details, firstPriceSpan, hp1, hp2, str]
  · simp [extract_item_details, firstPriceSpan, hp1, hp2, hn, str]
  · simp [extract_item_details, firstPriceSpan, hp1, hp2, ho, str]

/-- Witness for C2 at the fully absent product element. -/
theorem C2_witness :
    (extract_item_details ⟨none, none, none, none⟩).price = str "$Not found" ∧
    (extract_item_details ⟨none, none, none, none⟩).productName = str "Not found" ∧
    (extract_item_details ⟨none, none, none, none⟩).ounces = str "Not found" := by
  have h := C2_price_sentinel_has_dollar_prefix ⟨none, none, none, none⟩ rfl rfl
  exact ⟨h.1, h.2.1 rfl, h.2.2 rfl⟩

/-- C9: a product element with no weight sub-element whose first
matching price container — whichever of the two selectors matches
first — holds the screen-reader text `$3.99` yields `Price = "$3.99"`
(the chunk after splitting on `$`, re-prefixed with `$`) and
`Ounces = "Not found"`; when the name element is present, the found
name text is returned. -/
theorem C9_price_found_ounces_sentinel (item : DeliItem)
    (hp : firstPriceSpan item = some (str "$3.99"))
    (ho : item.ouncesText = none) :
    (extract_item_details item).price = str "$3.99" ∧
    (extract_item_details item).ounces = str "Not found" ∧
    (∀ n, item.nameText = some n → (extract_item_details item).productName = n) := by
  refine ⟨?_, ?_, ?_⟩
  · simp only [extract_item_details, hp]
    decide
  · simp [extract_item_details, ho, str]
  · intro n hn
    simp [extract_item_details, hn]

/-- Witness for C9 at a product element whose `$3.99` comes from the
second price container, `div.e-s71gfs`. -/
theorem C9_witness :
    (extract_item_details ⟨none, some (str "$3.99"), some (str "Ham"), none⟩).price = str "$3.99" ∧
    (extract_item_details ⟨none, some (str "$3.99"), some (str "Ham"), none⟩).ounces = str "Not found" ∧
    (extract_item_details ⟨none, some (str "$3.99"), some (str "Ham"), none⟩).productName = str "Ham" := by
  have h := C9_price_found_ounces_sentinel ⟨none, some (str "$3.99"), some (str "Ham"), none⟩ rfl rfl
  exact ⟨h.1, h.2.1, h.2.2 (str "Ham") rfl⟩

/-- C10: when the matching span's text contains no `$`, the whole raw
text is used as the price and still gets the `$` prefix; the split on
`$` only happens when a `$` is present. -/
theorem C10_no_dollar_uses_raw_text (item : DeliItem) (s : Str)
    (hp : firstPriceSpan item = some s) (hd : hasCh '$' s = false) :
    (extract_item_details item).price = '$' :: s := by
  simp [extract_item_details, hp, hd, str]

/-- Witness for C10: span text `Free` yields price `$Free`. -/
theorem C10_witness :
    (extract_item_details ⟨some (str "Free"), none, none, none⟩).price = str "$Free" :=
  C10_no_dollar_uses_raw_text ⟨some (str "Free"), none, none, none⟩ (str "Free") rfl rfl

/-- A URL absent from a list occurs zero times in it. -/
theorem countOcc_eq_zero {x : Str} {l : List Str} (hx : x ∉ l) :
    countOcc x l = 0 := by
  induction l with
  | nil => rfl
  | cons y t ih =>
    have hyx : y ≠ x := fun he => hx (he ▸ List.mem_cons_self y t)
    have hxt : x ∉ t := fun ht => hx (List.mem_cons_of_mem y ht)
    simp [countOcc, hyx, ih hxt]

/-- A URL occurring in a duplicate-free list occurs exactly once. -/
theorem countOcc_eq_one {x : Str} {l : List Str} (hn : l.Nodup) (hx : x ∈ l) :
    countOcc x l = 1 := by
  induction l with
  | nil => cases hx
  | cons y t ih =>
    rcases List.mem_cons.mp hx with rfl | hxt
    · have : x ∉ t := (List.nodup_cons.mp hn).1
      simp [countOcc, countOcc_eq_zero this]
    · have hyx : y ≠ x := fun he => (List.nodup_cons.mp hn).1 (he ▸ hxt)
      simp [countOcc, hyx, ih (List.nodup_cons.mp hn).2 hxt]

/-- The fold of `get_subcategory_urls` only ever appends fresh elements,
so a duplicate-free accumulator stays duplicate-free. -/
theorem subUrlsFold_nodup (l : List Str) :
    ∀ acc : List Str, acc.Nodup → (l.foldl subStep acc).Nodup := by
  induction l with
  | nil => intro acc hacc; simpa using hacc
  | cons h t ih =>
    intro acc hacc
    simp only [List.foldl_cons]
    apply ih
    unfold subStep setInsert
    by_cases hm : matchesPattern (resolveUrl h)
    · rw [if_pos hm]
      by_cases hmem : resolveUrl h ∈ acc
      · simpa [hmem] using hacc
      · rw [if_neg hmem]
        exact List.Nodup.append hacc (List.nodup_singleton _)
          (fun a ha hb => hmem ((List.mem_singleton.mp hb) ▸ ha))
    · simpa [hm] using hacc

/-- Membership in the fold of `get_subcategory_urls`: an element is in
the result iff it was in the accumulator or is the resolution of a
pattern-matching candidate. -/
theorem subUrlsFold_mem (l : List Str) (u : Str) :
    ∀ acc : List Str,
      (u ∈ l.foldl subStep acc ↔
        u ∈ acc ∨ ∃ h ∈ l, matchesPattern (resolveUrl h) = true ∧ resolveUrl h = u) := by
  induction l with
  | nil => intro acc; simp
  | cons h t ih =>
    intro acc
    simp only [List.foldl_cons]
    rw [ih]
    unfold subStep setInsert
    by_cases hm : matchesPattern (resolveUrl h)
    · rw [if_pos hm]
      by_cases hmem : resolveUrl h ∈ acc
      · rw [if_pos hmem]
        constructor
        · rintro (hu | ⟨x, hx, hpx, hrx⟩)
          · exact Or.inl hu
          · exact Or.inr ⟨x, List.mem_cons_of_mem h hx, hpx, hrx⟩
        · rintro (hu | ⟨x, hx, hpx, hrx⟩)
          · exact Or.inl hu
          · rcases List.mem_cons.mp hx with rfl | hx
            · exact Or.inl (hrx ▸ hmem)
            · exact Or.inr ⟨x, hx, hpx, hrx⟩
      · rw [if_neg hmem]
        constructor
        · rintro (hu | ⟨x, hx, hpx, hrx⟩)
          · rcases List.mem_append.mp hu with hu | hu
            · exact Or.inl hu
            · exact Or.inr ⟨h, List.mem_cons_self h t, hm, (List.mem_singleton.mp hu).symm⟩
          · exact Or.inr ⟨x, List.mem_cons_of_mem h hx, hpx, hrx⟩
        · rintro (hu | ⟨x, hx, hpx, hrx⟩)
          · exact Or.inl (List.mem_append.mpr (Or.inl hu))
          · rcases List.mem_cons.mp hx with rfl | hx
            · exact Or.inl (List.mem_append.mpr (Or.inr (List.mem_singleton.mpr hrx.symm)))
            · exact Or.inr ⟨x, hx, hpx, hrx⟩
    · rw [if_neg hm]
      constructor
      · rintro (hu | ⟨x, hx, hpx, hrx⟩)
        · exact Or.inl hu
        · exact Or.inr ⟨x, List.mem_cons_of_mem h hx, hpx, hrx⟩
      · rintro (hu | ⟨x, hx, hpx, hrx⟩)
        · exact Or.inl hu
        · rcases List.mem_cons.mp hx with rfl | hx
          · exact absurd hpx (by simpa using hm)
          · exact Or.inr ⟨x, hx, hpx, hrx⟩

/-- C3: a URL that arises as the resolution of at least one
pattern-matching collection link of the page appears exactly once in the
list returned by sub-category discovery, however many times its href
occurs on the page. -/
theorem C3_subcategory_dedup (hrefs : List Str) (department_url u : Str)
    (hu : ∃ h ∈ hrefs, matchesCollections h = true ∧
      matchesPattern (resolveUrl h) = true ∧ resolveUrl h = u) :
    countOcc u (get_subcategory_urls hrefs department_url) = 1 := by
  obtain ⟨h, hh, hc, hp, hr⟩ := hu
  have hmem : u ∈ (hrefs.filter matchesCollections).foldl subStep [] := by
    rw [subUrlsFold_mem]
    exact Or.inr ⟨h, List.mem_filter.mpr ⟨hh, hc⟩, hp, hr⟩
  have hne : ¬((hrefs.filter matchesCollections).foldl subStep [] = []) := by
    intro he; rw [he] at hmem; simp at hmem
  simp only [get_subcategory_urls, if_neg hne]
  exact countOcc_eq_one
    (subUrlsFold_nodup (hrefs.filter matchesCollections) [] List.nodup_nil) hmem

/-- Witness for C3: the duplicated relative href
`/store/aldi/collections/n-123` yields the single absolute URL
`https://shop.aldi.us/store/aldi/collections/n-123`. -/
theorem C3_witness :
    countOcc (str "https://shop.aldi.us/store/aldi/collections/n-123")
      (get_subcategory_urls
        [str "/store/aldi/collections/n-123", str "/store/aldi/collections/n-123"]
        (str "https://shop.aldi.us/store/aldi/d-1")) = 1 ∧
    get_subcategory_urls
      [str "/store/aldi/collections/n-123", str "/store/aldi/collections/n-123"]
      (str "https://shop.aldi.us/store/aldi/d-1") =
      [str "https://shop.aldi.us/store/aldi/collections/n-123"] := by
  refine ⟨C3_subcategory_dedup _ _ _
    ⟨str "/store/aldi/collections/n-123", by decide, by decide, by decide, by decide⟩, ?_⟩
  decide

/-- When no link of the page passes both the locator's substring filter
and the `n-`/`rc-` pattern test, the fold of `get_subcategory_urls`
leaves the accumulator unchanged. -/
theorem subUrlsFold_empty (l : List Str)
    (hl : ∀ h ∈ l, matchesPattern (resolveUrl h) = false) :
    l.foldl subStep [] = [] := by
  induction l with
  | nil => rfl
  | cons h t ih =>
    simp only [List.foldl_cons, subStep, hl h (List.mem_cons_self h t),
      Bool.false_eq_true, if_false]
    exact ih fun x hx => hl x (List.mem_cons_of_mem h hx)

/-- C4: a department page on which no link matches the collection-URL
path patterns yields the single-element list holding the department URL
itself. -/
theorem C4_fallback_to_department (hrefs : List Str) (department_url : Str)
    (hz : ∀ h ∈ hrefs, matchesCollections h = true →
      matchesPattern (resolveUrl h) = false) :
    get_subcategory_urls hrefs department_url = [department_url] := by
  have he : (hrefs.filter matchesCollections).foldl subStep [] = [] :=
    subUrlsFold_empty _ fun h hh =>
      hz h (List.mem_filter.mp hh).1 (List.mem_filter.mp hh).2
  simp [get_subcategory_urls, he]

/-- Witness for C4: a page whose only collection link fails the
`n-`/`rc-` patterns falls back to the department URL. -/
theorem C4_witness :
    get_subcategory_urls [str "/store/aldi/collections/seasonal"]
      (str "https://shop.aldi.us/store/aldi/d-1") =
      [str "https://shop.aldi.us/store/aldi/d-1"] :=
  C4_fallback_to_department _ _ (by decide)

/-- On a height sequence with no two equal consecutive readings,
`scroll_aux` exhausts any amount of fuel. -/
theorem scroll_aux_ne (heights : Nat → Nat)
    (H : ∀ j, heights (j + 1) ≠ heights j) :
    ∀ fuel i, scroll_aux heights (heights i) (i + 1) fuel = none := by
  intro fuel
  induction fuel with
  | zero => intro i; rfl
  | succ n ih =>
    intro i
    simp only [scroll_aux, H i, if_neg]
    exact ih (i + 1)

/-- When `scroll_aux` stops at reading `k`, that reading equals the
previous one and no earlier pair of consecutive readings was equal. -/
theorem scroll_aux_stop (heights : Nat → Nat) :
    ∀ fuel i k, 1 ≤ i →
      scroll_aux heights (heights (i - 1)) i fuel = some k →
      i ≤ k ∧ heights k = heights (k - 1) ∧
        ∀ j, i ≤ j → j < k → heights j ≠ heights (j - 1) := by
  intro fuel
  induction fuel with
  | zero => intro i k _ h; exact absurd h (by simp [scroll_aux])
  | succ n ih =>
    intro i k hi h
    simp only [scroll_aux] at h
    by_cases he : heights i = heights (i - 1)
    · rw [if_pos he] at h
      obtain rfl : i = k := Option.some.inj h
      exact ⟨le_refl i, he, fun j hj1 hj2 => absurd (lt_of_le_of_lt hj1 hj2) (lt_irrefl i)⟩
    · rw [if_neg he] at h
      have hstep : heights i = heights ((i + 1) - 1) := by simp
      rw [hstep] at h
      obtain ⟨hk1, hk2, hk3⟩ := ih (i + 1) k (Nat.le_succ_of_le hi) h
      refine ⟨le_trans (Nat.le_succ i) hk1, hk2, fun j hj1 hj2 => ?_⟩
      rcases Nat.eq_or_lt_of_le hj1 with rfl | hj'
      · exact he
      · exact hk3 j hj' hj2

/-- C5: the lazy-load stabilization loop stops exactly at the first
reading equal to its predecessor, and on a height sequence in which no
two consecutive readings are ever equal it never terminates, for any
amount of fuel (the code has no iteration cap or timeout). -/
theorem C5_scroll_termination (heights : Nat → Nat) :
    ((∀ j, heights (j + 1) ≠ heights j) →
      ∀ fuel, scroll_to_load_all_items heights fuel = none) ∧
    (∀ fuel k, scroll_to_load_all_items heights fuel = some k →
      1 ≤ k ∧ heights k = heights (k - 1) ∧
        ∀ j, 1 ≤ j → j < k → heights j ≠ heights (j - 1)) := by
  constructor
  · intro H fuel
    have := scroll_aux_ne heights H fuel 0
    simpa [scroll_to_load_all_items] using this
  · intro fuel k h
    have h' : scroll_aux heights (heights (1 - 1)) 1 fuel = some k := by
      simpa [scroll_to_load_all_items] using h
    exact scroll_aux_stop heights fuel 1 k (le_refl 1) h'

/-- Witness for C5: strictly increasing heights never stabilize, and
constant heights stop at the first re-reading. -/
theorem C5_witness :
    scroll_to_load_all_items (fun i => i) 5 = none ∧
    (1 ≤ 1 ∧ (fun _ : Nat => 7) 1 = (fun _ : Nat => 7) (1 - 1) ∧
      ∀ j, 1 ≤ j → j < 1 → (fun _ : Nat => 7) j ≠ (fun _ : Nat => 7) (j - 1)) := by
  constructor
  · exact (C5_scroll_termination (fun i => i)).1 (fun j => Nat.succ_ne_self j) 5
  · exact (C5_scroll_termination (fun _ => 7)).2 1 1 rfl

/-- Character search distributes over concatenation. -/
theorem hasCh_append (c : Char) (a b : Str) :
    hasCh c (a ++ b) = (hasCh c a || hasCh c b) := by
  induction a with
  | nil => simp [hasCh]
  | cons d a' ih => simp [hasCh, ih, Bool.or_assoc]

/-- A character is absent exactly when no element equals it. -/
theorem hasCh_eq_false_iff (c : Char) (s : Str) :
    hasCh c s = false ↔ ∀ d ∈ s, d ≠ c := by
  induction s with
  | nil => simp [hasCh]
  | cons d s' ih => simp [hasCh, ih]

/-- Splitting at a separator that the left part avoids peels off the
left part as the first chunk. -/
theorem pySplitCh_sep_append (sep : Char) (b : Str) :
    ∀ a : Str, hasCh sep a = false →
      pySplitCh sep (a ++ sep :: b) = a :: pySplitCh sep b := by
  intro a
  induction a with
  | nil => intro _; simp [pySplitCh]
  | cons c a' ih =>
    intro ha
    simp only [hasCh, Bool.or_eq_false_iff] at ha
    have hc : ¬(c = sep) := by simpa using ha.1
    simp only [List.cons_append, pySplitCh, if_neg hc]
    rw [List.append_eq, ih ha.2]

/-- A field the writer leaves unquoted is serialized verbatim. -/
theorem csvField_plain {f : Str} (hq : needsQuote f = false) : csvField f = f := by
  simp [csvField, hq]

/-- An unquoted field contains no newline. -/
theorem needsQuote_no_nl {f : Str} (hq : needsQuote f = false) :
    hasCh '\n' f = false := by
  rw [hasCh_eq_false_iff]
  intro d hd he
  subst he
  have h := (List.any_eq_false.mp hq) '\n' hd
  simp at h

/-- Joining newline-free fields with commas yields a newline-free line. -/
theorem joinComma_no_nl : ∀ fs : List Str,
    (∀ f ∈ fs, hasCh '\n' f = false) → hasCh '\n' (joinComma fs) = false := by
  intro fs
  induction fs with
  | nil => intro _; rfl
  | cons f gs ih =>
    intro hf
    cases gs with
    | nil => exact hf f (List.mem_singleton.mpr rfl)
    | cons g gs' =>
      show hasCh '\n' (f ++ ',' :: joinComma (g :: gs')) = false
      rw [hasCh_append]
      have h1 := hf f (List.mem_cons_self f _)
      have h2 : hasCh '\n' (',' :: joinComma (g :: gs')) = false := by
        show (',' = '\n' || hasCh '\n' (joinComma (g :: gs'))) = false
        rw [ih fun x hx => hf x (List.mem_cons_of_mem f hx)]
        decide
      rw [h1, h2]
      rfl

/-- The line of a plain record contains no newline. -/
theorem plain_recordLine_no_nl {r : Record} (hp : plainRecord r = true) :
    hasCh '\n' (recordLine r) = false := by
  unfold recordLine
  apply joinComma_no_nl
  intro f hf
  obtain ⟨g, hg, rfl⟩ := List.mem_map.mp hf
  have hgq : needsQuote g = false := by
    have := (List.all_eq_true.mp hp) g hg
    simpa using this
  rw [csvField_plain hgq]
  exact needsQuote_no_nl hgq

/-- The serialized rows of plain records that are not the header line
themselves contain no line equal to the header line. -/
theorem countOcc_lines_rows_zero : ∀ data : List Record,
    (∀ r ∈ data, plainRecord r = true ∧ recordLine r ≠ headerLine) →
    countOcc headerLine (linesOf (serializeRows data)) = 0 := by
  intro data
  induction data with
  | nil =>
    intro _
    show countOcc headerLine [[]] = 0
    have : ¬([] = headerLine) := by decide
    simp [countOcc, this]
  | cons r rest ih =>
    intro hp
    have hr := hp r (List.mem_cons_self r rest)
    have hrest := fun x hx => hp x (List.mem_cons_of_mem r hx)
    have hs : serializeRows (r :: rest) = recordLine r ++ '\n' :: serializeRows rest := by
      show serializeRecord r ++ serializeRows rest = _
      rw [serializeRecord, List.append_assoc]
      rfl
    have h0 := ih hrest
    rw [linesOf] at h0
    rw [hs, linesOf, pySplitCh_sep_append '\n' _ _ (plain_recordLine_no_nl hr.1)]
    simp [countOcc, hr.2, h0]

/-- C7: appending a non-empty batch when the output file does not exist
treats the missing file as having no header and writes exactly one
header row, in the fixed column order `Date, Category, Product Name,
Price, Ounces`, before the data rows. -/
theorem C7_missing_file_single_header (data : List Record) (hd : data ≠ []) :
    append_to_csv data none = some (headerLine ++ '\n' :: serializeRows data) ∧
    ((∀ r ∈ data, plainRecord r = true ∧ recordLine r ≠ headerLine) →
      countOcc headerLine (linesOf (headerLine ++ '\n' :: serializeRows data)) = 1) := by
  constructor
  · simp [append_to_csv, hd]
  · intro hp
    rw [linesOf, pySplitCh_sep_append '\n' _ _ (by decide)]
    have h0 := countOcc_lines_rows_zero data hp
    rw [linesOf] at h0
    simp [countOcc, h0]

/-- Witness for C7 at a one-record batch. -/
theorem C7_witness :
    append_to_csv [⟨str "2026-10-12", str "Deli", str "Ham", str "$3.99", str "12 oz"⟩] none =
      some (headerLine ++ '\n' ::
        serializeRows [⟨str "2026-10-12", str "Deli", str "Ham", str "$3.99", str "12 oz"⟩]) ∧
    countOcc headerLine (linesOf (headerLine ++ '\n' ::
      serializeRows [⟨str "2026-10-12", str "Deli", str "Ham", str "$3.99", str "12 oz"⟩])) = 1 := by
  have h := C7_missing_file_single_header
    [⟨str "2026-10-12", str "Deli", str "Ham", str "$3.99", str "12 oz"⟩] (by decide)
  exact ⟨h.1, h.2 (by decide)⟩

/-- C1 amended: a later append writes data rows only, and in particular
adds no second header row, whenever the 1KB sniff detects the existing
header. -/
theorem C1_sniffed_header_appends_rows_only (content : Str) (data : List Record)
    (hd : data ≠ []) (hs : sniffHasHeader (content.take 1024) = true) :
    append_to_csv data (some content) = some (content ++ serializeRows data) := by
  simp [append_to_csv, hd, hs]

/-- Witness for the amended C1: appending to a file holding exactly the
header line adds the data rows and nothing else. -/
theorem C1_witness :
    append_to_csv [⟨str "2026-10-12", str "Deli", str "Ham", str "$3.99", str "12 oz"⟩]
      (some (headerLine ++ ['\n'])) =
      some ((headerLine ++ ['\n']) ++
        serializeRows [⟨str "2026-10-12", str "Deli", str "Ham", str "$3.99", str "12 oz"⟩]) :=
  C1_sniffed_header_appends_rows_only (headerLine ++ ['\n'])
    [⟨str "2026-10-12", str "Deli", str "Ham", str "$3.99", str "12 oz"⟩]
    (by decide) (by decide)

/-- Counterexample to C1: after a first append writes the header and
the `cexBatch` rows, the 1KB sniff of the resulting file returns
`false`, so a second append writes a second header row — the file then
contains the header line twice.  (CPython's `csv.Sniffer.has_header`
returns `False` on this sample for the same reason: the vote is -3.) -/
theorem C1_counterexample :
    sniffHasHeader (((append_to_csv cexBatch none).getD []).take 1024) = false ∧
    countOcc headerLine (linesOf ((append_to_csv cexBatch none).getD [])) = 1 ∧
    countOcc headerLine
      (linesOf ((append_to_csv cexBatch (append_to_csv cexBatch none)).getD [])) = 2 := by
  decide

/-- The accumulation loop of `run` collects exactly the successful
scrape results, in order. -/
theorem accumFold_eq (scrape : Str → Option (List Record)) :
    ∀ (l : List Str) (acc : List Record),
      l.foldl (accumStep scrape) acc = acc ++ (l.filterMap scrape).flatten := by
  intro l
  induction l with
  | nil => intro acc; simp
  | cons u t ih =>
    intro acc
    simp only [List.foldl_cons, ih, accumStep, List.filterMap_cons]
    cases scrape u with
    | none => simp
    | some d => simp

/-- C6: when the top-level navigation list is not found, category
discovery returns the empty list and the orchestrator exits without
invoking the CSV writer, so the output-file state is unchanged (a
missing file stays missing). -/
theorem C6_no_nav_no_output (site : Site) (scrape : Str → Option (List Record))
    (file : Option Str) (hnav : site.navListCount = 0) :
    get_department_urls site = [] ∧ run site scrape file = file := by
  have hurls : get_department_urls site = [] := by
    simp [get_department_urls, hnav]
  exact ⟨hurls, by simp [run, hurls]⟩

/-- Witness for C6 at a storefront with no navigation list and a
missing output file. -/
theorem C6_witness :
    get_department_urls ⟨0, [], fun _ => []⟩ = [] ∧
    run ⟨0, [], fun _ => []⟩ (fun _ => none) none = none :=
  C6_no_nav_no_output ⟨0, [], fun _ => []⟩ (fun _ => none) none rfl

/-- C8: the orchestrator's final file state is the one append of the
concatenated per-category results of exactly the non-failing URLs, in
discovery order — a URL whose scrape raises is skipped and the records
accumulated from the other URLs are all written at the end. -/
theorem C8_per_category_isolation (site : Site) (scrape : Str → Option (List Record))
    (file : Option Str) :
    run site scrape file =
      append_to_csv (((get_department_urls site).filterMap scrape).flatten) file := by
  unfold run
  by_cases h : get_department_urls site = []
  · simp [h, append_to_csv]
  · simp [h, accumFold_eq]
